import Mathlib

/-!
Verification development for the Athens events chatbot (`finalapp.py`).

The Python source is shallowly embedded: dates are modelled as proleptic
Gregorian ordinals (`ℤ`, day 1 = 0001-01-01, a Monday, exactly as in
Python `datetime.toordinal`), strings as `List Char` / `String`, and the
pandas event table as a `List EventRecord` parameter.  Python substring
tests (`"kw" in s`), the date regex `(\d{1,2}/\d{1,2}/\d{2,4})` with
`re.search`, `strptime` parsing for `%m/%d/%Y` / `%m/%d/%y` and
`%H:%M:%S`, and `DataFrame.sort_values(by=["Date", "Time"])` (a stable
lexicographic sort on the raw column values) are each given executable
Lean counterparts below.
-/

namespace AthensEvents

/-- Python `pat in s`: substring containment, checked at every suffix. -/
def startsWithL : List Char → List Char → Bool
  | _, [] => true
  | [], _ :: _ => false
  | a :: as, b :: bs => a = b && startsWithL as bs

/-- Python `pat in s` (substring test). -/
def containsSub : List Char → List Char → Bool
  | [], pat => startsWithL [] pat
  | c :: r, pat => startsWithL (c :: r) pat || containsSub r pat

/-- Python `query.lower()` (ASCII model). -/
def lowerL (q : List Char) : List Char := q.map Char.toLower

/-- Python `str.lower()` on `String`s (ASCII model). -/
def lowerS (s : String) : String := String.mk (s.toList.map Char.toLower)

/-- Digit string to number, e.g. `"2025" ↦ 2025`. -/
def digitsToNat (l : List Char) : ℕ := l.foldl (fun n c => n * 10 + (c.toNat - 48)) 0

/-- Gregorian leap-year test, as in Python `datetime`. -/
def isLeap (y : ℕ) : Bool := (y % 4 == 0 && y % 100 != 0) || y % 400 == 0

/-- Days in a month of the proleptic Gregorian calendar. -/
def daysInMonth (y m : ℕ) : ℕ :=
  if m = 2 then (if isLeap y then 29 else 28)
  else if m = 4 ∨ m = 6 ∨ m = 9 ∨ m = 11 then 30
  else 31

/-- Cumulative day counts before each month in a non-leap year. -/
def cumDays : List ℕ := [0, 31, 59, 90, 120, 151, 181, 212, 243, 273, 304, 334]

/-- Days strictly before month `m` in year `y`. -/
def daysBefore (y m : ℕ) : ℕ :=
  cumDays.getD (m - 1) 0 + (if 2 < m ∧ isLeap y then 1 else 0)

/-- Proleptic Gregorian ordinal of year/month/day, as in
`datetime.date(y, m, d).toordinal()` (ordinal 1 = 0001-01-01). -/
def toOrdinal (y m d : ℕ) : ℕ :=
  let p := y - 1
  365 * p + p / 4 - p / 100 + p / 400 + daysBefore y m + d

/-- Inverse of `toOrdinal`, used only for `strftime`-style rendering. -/
def fromOrdinal (o : ℤ) : ℕ × ℕ × ℕ :=
  let k := o.toNat + 305
  let era := k / 146097
  let doe := k % 146097
  let yoe := (doe - doe / 1460 + doe / 36524 - doe / 146096) / 365
  let y := yoe + era * 400
  let doy := doe - (365 * yoe + yoe / 4 - yoe / 100)
  let mp := (5 * doy + 2) / 153
  let d := doy - (153 * mp + 2) / 5 + 1
  let m := if mp < 10 then mp + 3 else mp - 9
  (if m ≤ 2 then y + 1 else y, m, d)

/-- Python `date.weekday()` on an ordinal: Monday = 0 … Sunday = 6. -/
def weekdayZ (d : ℤ) : ℤ := (d - 1) % 7

def weekdayName (i : ℕ) : String :=
  ["Monday", "Tuesday", "Wednesday", "Thursday", "Friday", "Saturday", "Sunday"].getD i ""

def monthName (m : ℕ) : String :=
  ["January", "February", "March", "April", "May", "June", "July", "August",
   "September", "October", "November", "December"].getD (m - 1) ""

def pad2 (n : ℕ) : String := if n < 10 then "0" ++ toString n else toString n

/-- Rendering of `strftime("%A, %B %d, %Y")` on an ordinal date. -/
def fmtDate (o : ℤ) : String :=
  let ymd := fromOrdinal o
  weekdayName ((weekdayZ o).toNat) ++ ", " ++ monthName ymd.2.1 ++ " " ++
    pad2 ymd.2.2 ++ ", " ++ toString ymd.1

/-- The month/day group `\d{1,2}/` of the date regex at a fixed position:
greedily two digits, else one, each followed by `'/'` (consumed). -/
def matchMD : List Char → Option (List Char × List Char)
  | a :: b :: c :: r =>
    if a.isDigit && b.isDigit && c = '/' then some ([a, b], r)
    else if a.isDigit && b = '/' then some ([a], c :: r)
    else none
  | [a, b] => if a.isDigit && b = '/' then some ([a], []) else none
  | _ => none

/-- The year group `\d{2,4}` of the date regex: greedily up to four digits,
at least two. -/
def matchY : List Char → Option (List Char)
  | a :: b :: rest =>
    if a.isDigit && b.isDigit then
      match rest with
      | c :: rest2 =>
        if c.isDigit then
          match rest2 with
          | d :: _ => if d.isDigit then some [a, b, c, d] else some [a, b, c]
          | [] => some [a, b, c]
        else some [a, b]
      | [] => some [a, b]
    else none
  | _ => none

/-- One attempt of the regex `(\d{1,2}/\d{1,2}/\d{2,4})` anchored at the
start of `s`, returning the three digit groups. -/
def tryAt (s : List Char) : Option (List Char × List Char × List Char) :=
  match matchMD s with
  | none => none
  | some (mS, r1) =>
    match matchMD r1 with
    | none => none
    | some (dS, r2) =>
      match matchY r2 with
      | none => none
      | some yS => some (mS, dS, yS)

/-- Model of `re.search(r"(\d{1,2}/\d{1,2}/\d{2,4})", q)`: leftmost match wins. -/
def searchDate : List Char → Option (List Char × List Char × List Char)
  | [] => none
  | c :: r =>
    match tryAt (c :: r) with
    | some g => some g
    | none => searchDate r

/-- Model of `datetime.strptime(date_str, fmt)` for `fmt` in `("%m/%d/%Y", "%m/%d/%y")`,
tried in that order, on the three matched digit groups.  `%Y` demands exactly
four year digits, `%y` exactly two (69–99 ↦ 19xx, 00–68 ↦ 20xx); month 1–12,
day 1–31, and calendar validity are enforced as in `strptime`. -/
def parseMDY (mS dS yS : List Char) : Option ℤ :=
  let m := digitsToNat mS
  let d := digitsToNat dS
  let try4 : Option ℤ :=
    if yS.length = 4 then
      let y := digitsToNat yS
      if 1 ≤ m ∧ m ≤ 12 ∧ 1 ≤ d ∧ d ≤ 31 ∧ 1 ≤ y ∧ d ≤ daysInMonth y m then
        some ((toOrdinal y m d : ℕ) : ℤ)
      else none
    else none
  match try4 with
  | some o => some o
  | none =>
    if yS.length = 2 then
      let y := if digitsToNat yS ≤ 68 then 2000 + digitsToNat yS else 1900 + digitsToNat yS
      if 1 ≤ m ∧ m ≤ 12 ∧ 1 ≤ d ∧ d ≤ 31 ∧ d ≤ daysInMonth y m then
        some ((toOrdinal y m d : ℕ) : ℤ)
      else none
    else none

/-- The whole explicit-date-literal rule: regex search on the raw query,
then `strptime`; `none` both when no substring matches and when the match
is not a valid calendar date (the rule then falls through). -/
def dateLit (q : List Char) : Option ℤ :=
  match searchDate q with
  | some (mS, dS, yS) => parseMDY mS dS yS
  | none => none

def tomorrowKW : List Char := "tomorrow".toList
def nextWeekKW : List Char := "next week".toList
def weekendKW : List Char := "weekend".toList

/-- Check `any(term in query_lower for term in ["that day", "later", "other", "that night"])`. -/
def anaphoraTrigger (ql : List Char) : Bool :=
  containsSub ql "that day".toList || containsSub ql "later".toList ||
    containsSub ql "other".toList || containsSub ql "that night".toList

/-- The `for day in days` loop: first weekday name (list order
monday…sunday) contained in the lowercased query. -/
def firstWeekdayIdx (ql : List Char) : Option ℕ :=
  if containsSub ql "monday".toList then some 0
  else if containsSub ql "tuesday".toList then some 1
  else if containsSub ql "wednesday".toList then some 2
  else if containsSub ql "thursday".toList then some 3
  else if containsSub ql "friday".toList then some 4
  else if containsSub ql "saturday".toList then some 5
  else if containsSub ql "sunday".toList then some 6
  else none

/-- Rules of `determine_target_date` after the "tomorrow" and anaphora checks:
"next week", weekday names, explicit date literal, "weekend", default. -/
def laterRules (q ql : List Char) (base : ℤ) : ℤ :=
  if containsSub ql nextWeekKW then base + (7 - weekdayZ base)
  else
    match firstWeekdayIdx ql with
    | some i =>
      let ti : ℤ := (i : ℕ)
      let wd := weekdayZ base
      base + (if wd ≤ ti then ti - wd else ti - wd + 7)
    | none =>
      match dateLit q with
      | some o => o
      | none => if containsSub ql weekendKW then base + (5 - weekdayZ base) else base

/-- Model of `determine_target_date(query, base_date)`, reading
`st.session_state["last_target_date"]` as the explicit argument `last`. -/
def determine_target_date (q : List Char) (base : ℤ) (last : Option ℤ) : ℤ :=
  let ql := lowerL q
  if containsSub ql tomorrowKW then base + 1
  else
    match last with
    | some L => if anaphoraTrigger ql then L else laterRules q ql base
    | none => laterRules q ql base

/-- A price cell, classified by what `float()` does with it: a finite
numeric value (modelled exactly as `ℚ`); one of the non-finite values
`float()` also accepts — positive/negative infinity and NaN (an empty
Excel price cell loads as NaN, and strings like `"inf"`/`"nan"` parse) —
or free-form text on which `float()` raises. -/
inductive PriceVal where
  | num (v : ℚ)
  | inf
  | neginf
  | nan
  | txt (s : String)
deriving DecidableEq

/-- Floor of a rational, computed on numerator/denominator. -/
def ratFloor (x : ℚ) : ℤ := Int.fdiv x.num x.den

/-- Round half-to-even of a rational to an integer (the rounding used by
`f"{v:.2f}"` on exactly representable values). -/
def roundHE (x : ℚ) : ℤ :=
  let f := ratFloor x
  let r := x - (f : ℚ)
  if r < 1 / 2 then f else if 1 / 2 < r then f + 1 else if f % 2 = 0 then f else f + 1

/-- Rendering of `f"{v:.2f}"`: sign, integer part, dot, two fractional digits. -/
def fmt2dec (v : ℚ) : String :=
  let c := roundHE (v * 100)
  let a := c.natAbs
  (if c < 0 then "-" else "") ++ toString (a / 100) ++ "." ++ pad2 (a % 100)

/-- Model of `format_price`: `"Free"` for a parseable value equal to zero
(`inf`, `-inf` and `nan` compare unequal to `0` in Python, so they take
the format branch, where `f"{v:.2f}"` prints them as `"inf"`, `"-inf"`,
`"nan"`), a dollar string for every other parseable value, and the
original text verbatim when `float()` raises. -/
def format_price : PriceVal → String
  | PriceVal.num v => if v = 0 then "Free" else "$" ++ fmt2dec v
  | PriceVal.inf => "$inf"
  | PriceVal.neginf => "$-inf"
  | PriceVal.nan => "$nan"
  | PriceVal.txt s => s

/-- One `\d{1,2}` group of `strptime("%H:%M:%S")` followed by `sep`. -/
def grab2 (s : List Char) (sep : Char) : Option (ℕ × List Char) :=
  match s with
  | a :: b :: c :: r =>
    if a.isDigit && b.isDigit && c = sep then some (digitsToNat [a, b], r)
    else if a.isDigit && b = sep then some (digitsToNat [a], c :: r)
    else none
  | [a, b] => if a.isDigit && b = sep then some (digitsToNat [a], []) else none
  | _ => none

/-- The final seconds group of `"%H:%M:%S"` (must end the string). -/
def grabEnd (s : List Char) : Option ℕ :=
  match s with
  | [a] => if a.isDigit then some (digitsToNat [a]) else none
  | [a, b] => if a.isDigit && b.isDigit then some (digitsToNat [a, b]) else none
  | _ => none

/-- Model of `datetime.strptime(time_str, "%H:%M:%S")`, keeping hour and minute. -/
def parseHMS (s : List Char) : Option (ℕ × ℕ) :=
  match grab2 s ':' with
  | some (h, r1) =>
    match grab2 r1 ':' with
    | some (mi, r2) =>
      match grabEnd r2 with
      | some sec => if h ≤ 23 && mi ≤ 59 && sec ≤ 59 then some (h, mi) else none
      | none => none
    | none => none
  | none => none

/-- Model of `format_time`: 12-hour `"%-I:%M %p"` rendering when the raw value
parses as `"%H:%M:%S"`, else the raw string unchanged. -/
def format_time (s : String) : String :=
  match parseHMS s.toList with
  | some (h, mi) =>
    let h12 := if h % 12 = 0 then 12 else h % 12
    toString h12 ++ ":" ++ pad2 mi ++ " " ++ (if h < 12 then "AM" else "PM")
  | none => s

/-- One row of the `athens_events.xlsx` table after the load-time
`pd.to_datetime` on `Date` (stored as an ordinal). -/
structure EventRecord where
  event : String
  category : String
  date : ℤ
  time : String
  location : String
  price : PriceVal
deriving DecidableEq

/-- Lexicographic `≤` on strings by code point, as Python compares the raw
`Time` column values. -/
def charListLe : List Char → List Char → Bool
  | [], _ => true
  | _ :: _, [] => false
  | a :: as, b :: bs =>
    if a.toNat < b.toNat then true
    else if b.toNat < a.toNat then false
    else charListLe as bs

def strLeB (a b : String) : Bool := charListLe a.toList b.toList

/-- The `sort_values(by=["Date", "Time"])` key: date first, then the raw
time string. -/
def keyLe (r1 r2 : EventRecord) : Bool :=
  if r1.date = r2.date then strLeB r1.time r2.time else decide (r1.date < r2.date)

/-- Model of `filtered.sort_values(by=["Date", "Time"])`: a stable lexicographic
sort on the two key columns (pandas uses `lexsort`, which is stable). -/
def sortEvents (l : List EventRecord) : List EventRecord := l.mergeSort keyLe

/-- One bullet line of the context string. -/
def renderRow (r : EventRecord) : String :=
  "• " ++ r.event ++ " on " ++ fmtDate r.date ++ " at " ++ format_time r.time ++
    " at " ++ r.location ++ " — " ++ format_price r.price ++ "\n"

/-- Model of `get_events_for_date_range(target_date)` (single-day lookup), with the
global `events_df` as the explicit `store` argument. -/
def get_events_for_date_range (store : List EventRecord) (target : ℤ) : String :=
  let filtered := store.filter (fun r => decide (r.date = target))
  if filtered.isEmpty then "No events found for this date."
  else String.join ((sortEvents filtered).map renderRow)

/-- Model of `get_events_for_category_and_date(category, target_date)`. -/
def get_events_for_category_and_date (store : List EventRecord) (category : String)
    (target : ℤ) : String :=
  let filtered := store.filter
    (fun r => decide (lowerS r.category = lowerS category) && decide (r.date = target))
  if filtered.isEmpty then
    "No " ++ category ++ " events found on " ++ fmtDate target ++ "."
  else String.join ((sortEvents filtered).map renderRow)

/-- Model of `get_events_for_date_range_range(start_date, end_date)`. -/
def get_events_for_date_range_range (store : List EventRecord) (s e : ℤ) : String :=
  let filtered := store.filter (fun r => decide (s ≤ r.date) && decide (r.date ≤ e))
  if filtered.isEmpty then "No events found for this period."
  else String.join ((sortEvents filtered).map renderRow)

/-- The days iterated by the `while current <= end_date` loops. -/
def dayList (s e : ℤ) : List ℤ :=
  if s ≤ e then (List.range ((e - s).toNat + 1)).map (fun i => s + (i : ℕ)) else []

/-- Model of `get_grouped_events_for_date_range_range(start_date, end_date)`. -/
def get_grouped_events_for_date_range_range (store : List EventRecord) (s e : ℤ) : String :=
  String.join ((dayList s e).map (fun d =>
    let ev := get_events_for_date_range store d
    fmtDate d ++ ":\n" ++ (if ev.startsWith "No events" then "No events." else ev) ++ "\n"))

/-- Model of `get_grouped_category_events_for_date_range(category, start, end)`. -/
def get_grouped_category_events_for_date_range (store : List EventRecord)
    (category : String) (s e : ℤ) : String :=
  String.join ((dayList s e).map (fun d =>
    let ev := get_events_for_category_and_date store category d
    fmtDate d ++ ":\n" ++
      (if ev.startsWith ("No " ++ category) then "No events." else ev) ++ "\n"))

/-- Model of `build_dataset_context(query, target_date)`. -/
def build_dataset_context (store : List EventRecord) (q : List Char) (target : ℤ) : String :=
  let ql := lowerL q
  if containsSub ql nextWeekKW then
    let nextSunday := target + 6
    if containsSub ql "karaoke".toList then
      get_grouped_category_events_for_date_range store "Karaoke & Open Mic" target nextSunday
    else if containsSub ql "music".toList || containsSub ql "concert".toList then
      get_grouped_category_events_for_date_range store "Music" target nextSunday
    else if containsSub ql "comedy".toList then
      get_grouped_category_events_for_date_range store "Comedy" target nextSunday
    else get_grouped_events_for_date_range_range store target nextSunday
  else if containsSub ql "karaoke".toList then
    get_events_for_category_and_date store "Karaoke & Open Mic" target
  else if containsSub ql "music".toList || containsSub ql "concert".toList then
    get_events_for_category_and_date store "Music" target
  else if containsSub ql "comedy".toList then
    get_events_for_category_and_date store "Comedy" target
  else get_events_for_date_range store target

/-- The per-day block the "next week" branch of `build_dataset_context`
emits for day `d`: the day heading plus that day's (possibly
category-filtered, per the same keyword cascade) records or the explicit
"No events." marker.  Which category filter applies depends only on the
lowercased query `ql`, never on `d`. -/
def grouped_day_block (store : List EventRecord) (ql : List Char) (d : ℤ) : String :=
  if containsSub ql "karaoke".toList then
    let ev := get_events_for_category_and_date store "Karaoke & Open Mic" d
    fmtDate d ++ ":\n" ++
      (if ev.startsWith ("No " ++ "Karaoke & Open Mic") then "No events." else ev) ++ "\n"
  else if containsSub ql "music".toList || containsSub ql "concert".toList then
    let ev := get_events_for_category_and_date store "Music" d
    fmtDate d ++ ":\n" ++ (if ev.startsWith ("No " ++ "Music") then "No events." else ev) ++ "\n"
  else if containsSub ql "comedy".toList then
    let ev := get_events_for_category_and_date store "Comedy" d
    fmtDate d ++ ":\n" ++ (if ev.startsWith ("No " ++ "Comedy") then "No events." else ev) ++ "\n"
  else
    let ev := get_events_for_date_range store d
    fmtDate d ++ ":\n" ++ (if ev.startsWith "No events" then "No events." else ev) ++ "\n"

inductive Role where
  | user
  | assistant
deriving DecidableEq

structure Message where
  role : Role
  content : String
deriving DecidableEq

/-- Model of `st.session_state`: the chat history and the remembered target date. -/
structure ConversationState where
  messages : List Message
  lastTargetDate : Option ℤ
deriving DecidableEq

/-- One chat turn (source lines 206–259): resolve the target date from the
pre-turn state, overwrite `last_target_date`, append the user message and
then the assistant message.  The external model reply is the abstract
`response` argument. -/
def runTurn (st : ConversationState) (q : List Char) (today : ℤ)
    (response : String) : ConversationState :=
  let target := determine_target_date q today st.lastTargetDate
  { messages := st.messages ++ [⟨Role.user, String.mk q⟩, ⟨Role.assistant, response⟩],
    lastTargetDate := some target }

/-- Characterisation of a "2-decimal currency string": leading `'$'` and
a final `'.'` followed by exactly two digits. -/
def twoDecShape (s : String) : Bool :=
  (s.toList.take 1 = ['$']) &&
  (match s.toList.reverse with
   | d0 :: d1 :: dot :: _ => dot = '.' && d1.isDigit && d0.isDigit
   | _ => false)

/-! ### Helper lemmas about the resolver cascade -/

theorem determine_eq_later (q : List Char) (base : ℤ) (last : Option ℤ)
    (h1 : containsSub (lowerL q) tomorrowKW = false)
    (h2 : last = none ∨ anaphoraTrigger (lowerL q) = false) :
    determine_target_date q base last = laterRules q (lowerL q) base := by
  cases last with
  | none => simp [determine_target_date, h1]
  | some L =>
    rcases h2 with h2 | h2
    · exact absurd h2 (by simp)
    · simp [determine_target_date, h1, h2]

theorem laterRules_nextweek (q ql : List Char) (base : ℤ)
    (h3 : containsSub ql nextWeekKW = true) :
    laterRules q ql base = base + (7 - weekdayZ base) := by
  simp [laterRules, h3]

theorem laterRules_weekday (q ql : List Char) (base : ℤ) (i : ℕ)
    (h3 : containsSub ql nextWeekKW = false)
    (h4 : firstWeekdayIdx ql = some i) :
    laterRules q ql base =
      base + (if weekdayZ base ≤ (i : ℤ) then (i : ℤ) - weekdayZ base
              else (i : ℤ) - weekdayZ base + 7) := by
  simp [laterRules, h3, h4]

theorem laterRules_fallback (q ql : List Char) (base : ℤ)
    (h3 : containsSub ql nextWeekKW = false)
    (h4 : firstWeekdayIdx ql = none)
    (h5 : dateLit q = none) :
    laterRules q ql base =
      if containsSub ql weekendKW then base + (5 - weekdayZ base) else base := by
  simp [laterRules, h3, h4, h5]

theorem laterRules_literal (q ql : List Char) (base : ℤ) (o : ℤ)
    (h3 : containsSub ql nextWeekKW = false)
    (h4 : firstWeekdayIdx ql = none)
    (h5 : dateLit q = some o) :
    laterRules q ql base = o := by
  simp [laterRules, h3, h4, h5]

theorem firstWeekdayIdx_le (ql : List Char) (i : ℕ)
    (h : firstWeekdayIdx ql = some i) : i ≤ 6 := by
  unfold firstWeekdayIdx at h
  split_ifs at h <;> simp_all <;> omega

theorem weekdayZ_nonneg (d : ℤ) : 0 ≤ weekdayZ d := by
  unfold weekdayZ; omega

theorem weekdayZ_lt_seven (d : ℤ) : weekdayZ d < 7 := by
  unfold weekdayZ; omega

/-! ### C1 -/

/-- C1 counterexample: with `lastTargetDate` set and the trigger phrase
"that day" present, an utterance that also contains "tomorrow" resolves to
`today + 1`, not to `lastTargetDate` — the anaphora rule is *not* first. -/
theorem tomorrow_preempts_anaphora_cex :
    determine_target_date ("show me that day and tomorrow".toList) 1000 (some 500) = 1001 ∧
    (1001 : ℤ) ≠ 500 ∧
    anaphoraTrigger (lowerL ("show me that day and tomorrow".toList)) = true := by
  refine ⟨by decide, by decide, by decide⟩

/-- C1 (amended): the anaphora rule is the *second* rule, after the
"tomorrow" rule.  If `lastTargetDate` is set, a trigger phrase is present
and the utterance does not contain "tomorrow", the resolver returns
`lastTargetDate` unchanged, taking precedence over every later rule; if
`lastTargetDate` is unset the anaphora rule is skipped and resolution
falls through to the later rules. -/
theorem anaphora_after_tomorrow (q : List Char) (base L : ℤ)
    (h1 : containsSub (lowerL q) tomorrowKW = false)
    (h2 : anaphoraTrigger (lowerL q) = true) :
    determine_target_date q base (some L) = L ∧
    determine_target_date q base none = laterRules q (lowerL q) base := by
  constructor
  · simp [determine_target_date, h1, h2]
  · simp [determine_target_date, h1]

/-- C1 witness. -/
theorem anaphora_after_tomorrow_witness :
    determine_target_date ("how about that day".toList) 1000 (some 500) = 500 ∧
    determine_target_date ("how about that day".toList) 1000 none =
      laterRules ("how about that day".toList) (lowerL ("how about that day".toList)) 1000 :=
  anaphora_after_tomorrow ("how about that day".toList) 1000 500 (by decide) (by decide)

/-! ### C4 -/

/-- C4: when the first matching rule is a named weekday (index `i`, with
Monday = 0, chosen by the `for day in days` loop), the resolver returns a
date between `today` and `today + 6`: exactly `today` when `today`'s
weekday is the named one, otherwise the smallest offset landing on
weekday `i` (no earlier day in the window has that weekday). -/
theorem weekday_rule_bounds (q : List Char) (base : ℤ) (last : Option ℤ) (i : ℕ)
    (h1 : containsSub (lowerL q) tomorrowKW = false)
    (h2 : last = none ∨ anaphoraTrigger (lowerL q) = false)
    (h3 : containsSub (lowerL q) nextWeekKW = false)
    (h4 : firstWeekdayIdx (lowerL q) = some i) :
    base ≤ determine_target_date q base last ∧
    determine_target_date q base last ≤ base + 6 ∧
    (determine_target_date q base last = base ↔ weekdayZ base = (i : ℤ)) ∧
    weekdayZ (determine_target_date q base last) = (i : ℤ) ∧
    ∀ k : ℤ, 0 ≤ k → k < determine_target_date q base last - base →
      weekdayZ (base + k) ≠ (i : ℤ) := by
  have hr := determine_eq_later q base last h1 h2
  rw [laterRules_weekday q (lowerL q) base i h3 h4] at hr
  have hi := firstWeekdayIdx_le _ _ h4
  rw [hr]
  simp only [weekdayZ] at *
  refine ⟨by omega, by omega, by constructor <;> (intro h; omega), by omega, ?_⟩
  intro k hk1 hk2
  omega

/-- C4 witness: `today` ordinal 1000 is a Saturday (weekday 5); "friday"
resolves six days ahead, to 1006; day 3 of the window is not a Friday. -/
theorem weekday_rule_bounds_witness :
    (1000 : ℤ) ≤ determine_target_date ("how about friday".toList) 1000 none ∧
    determine_target_date ("how about friday".toList) 1000 none ≤ 1000 + 6 ∧
    weekdayZ (determine_target_date ("how about friday".toList) 1000 none) = ((4 : ℕ) : ℤ) ∧
    weekdayZ (1000 + 3) ≠ ((4 : ℕ) : ℤ) := by
  have h := weekday_rule_bounds ("how about friday".toList) 1000 none 4
    (by decide) (Or.inl rfl) (by decide) (by decide)
  exact ⟨h.1, h.2.1, h.2.2.2.1, h.2.2.2.2 3 (by decide) (by decide)⟩

/-! ### C9 -/

/-- C9: the resolver is a total function by construction (it is a Lean
`def` returning `ℤ`), and an explicit-date-literal substring that fails
calendar parsing never raises: with every earlier rule unmatched and
`dateLit q = none` (no regex match, or an invalid calendar value such as
month 13 or Feb 30), resolution falls through to the weekend rule and
then the default rule, which yields `today`. -/
theorem unparseable_literal_falls_through (q : List Char) (base : ℤ) (last : Option ℤ)
    (h1 : containsSub (lowerL q) tomorrowKW = false)
    (h2 : last = none ∨ anaphoraTrigger (lowerL q) = false)
    (h3 : containsSub (lowerL q) nextWeekKW = false)
    (h4 : firstWeekdayIdx (lowerL q) = none)
    (h5 : dateLit q = none) :
    determine_target_date q base last =
      if containsSub (lowerL q) weekendKW then base + (5 - weekdayZ base) else base := by
  rw [determine_eq_later q base last h1 h2]
  exact laterRules_fallback q (lowerL q) base h3 h4 h5

/-- C9 witness: "2/30/2025" matches the regex but is not a valid calendar
date (Feb 30), so the rule is skipped and the default rule returns
`today`. -/
theorem unparseable_literal_falls_through_witness :
    determine_target_date ("party on 2/30/2025".toList) 100 none =
      if containsSub (lowerL ("party on 2/30/2025".toList)) weekendKW
      then 100 + (5 - weekdayZ 100) else 100 :=
  unparseable_literal_falls_through ("party on 2/30/2025".toList) 100 none
    (by decide) (Or.inl rfl) (by decide) (by decide) (by decide)

/-! ### C10 -/

/-- C10: when `today` is a Sunday (weekday 6) and the utterance reaches
the weekend rule, `today + (5 - weekday(today))` is `today - 1`, a date
strictly in the past — the offset is not floored at zero. -/
theorem weekend_on_sunday_past (q : List Char) (base : ℤ) (last : Option ℤ)
    (h1 : containsSub (lowerL q) tomorrowKW = false)
    (h2 : last = none ∨ anaphoraTrigger (lowerL q) = false)
    (h3 : containsSub (lowerL q) nextWeekKW = false)
    (h4 : firstWeekdayIdx (lowerL q) = none)
    (h5 : dateLit q = none)
    (h6 : containsSub (lowerL q) weekendKW = true)
    (h7 : weekdayZ base = 6) :
    determine_target_date q base last = base - 1 ∧
    determine_target_date q base last < base := by
  rw [determine_eq_later q base last h1 h2,
    laterRules_fallback q (lowerL q) base h3 h4 h5, h6, if_pos rfl, h7]
  omega

/-- C10 witness: ordinal 1001 is a Sunday; "anything fun this weekend"
resolves to 1000, strictly in the past. -/
theorem weekend_on_sunday_past_witness :
    determine_target_date ("anything fun this weekend".toList) 1001 none = 1001 - 1 ∧
    determine_target_date ("anything fun this weekend".toList) 1001 none < 1001 :=
  weekend_on_sunday_past ("anything fun this weekend".toList) 1001 none
    (by decide) (Or.inl rfl) (by decide) (by decide) (by decide) (by decide) (by decide)

/-! ### C3 -/

theorem build_nextweek_eq (store : List EventRecord) (q : List Char) (M : ℤ)
    (h3 : containsSub (lowerL q) nextWeekKW = true) :
    build_dataset_context store q M =
      String.join ((dayList M (M + 6)).map (grouped_day_block store (lowerL q))) := by
  simp only [build_dataset_context, h3, if_true]
  split_ifs with hk hm hc
  · simp only [get_grouped_category_events_for_date_range]
    exact congrArg String.join (List.map_congr_left fun d _ => by
      simp only [grouped_day_block]
      rw [if_pos hk])
  · simp only [get_grouped_category_events_for_date_range]
    exact congrArg String.join (List.map_congr_left fun d _ => by
      simp only [grouped_day_block]
      rw [if_neg hk, if_pos hm])
  · simp only [get_grouped_category_events_for_date_range]
    exact congrArg String.join (List.map_congr_left fun d _ => by
      simp only [grouped_day_block]
      rw [if_neg hk, if_neg hm, if_pos hc])
  · simp only [get_grouped_events_for_date_range_range]
    exact congrArg String.join (List.map_congr_left fun d _ => by
      simp only [grouped_day_block]
      rw [if_neg hk, if_neg hm, if_neg hc])

/-- C3: with no earlier rule matching, "next week" resolves to the Monday
strictly after `today` (`today + (7 - weekday(today))`, Monday = 0), the
range end is that Monday + 6 (the following Sunday, weekday 6), and the
context — in every branch, with or without a category keyword — is built
per day: it is the join of the per-day blocks over exactly the seven
calendar days of the range. -/
theorem next_week_rule (store : List EventRecord) (q : List Char) (base : ℤ)
    (last : Option ℤ)
    (h1 : containsSub (lowerL q) tomorrowKW = false)
    (h2 : last = none ∨ anaphoraTrigger (lowerL q) = false)
    (h3 : containsSub (lowerL q) nextWeekKW = true) :
    ∀ M : ℤ, determine_target_date q base last = M →
      M = base + (7 - weekdayZ base) ∧
      base < M ∧ M ≤ base + 7 ∧ weekdayZ M = 0 ∧ weekdayZ (M + 6) = 6 ∧
      build_dataset_context store q M =
        String.join ((dayList M (M + 6)).map (grouped_day_block store (lowerL q))) ∧
      dayList M (M + 6) = [M, M + 1, M + 2, M + 3, M + 4, M + 5, M + 6] := by
  intro M hM
  have hr := determine_eq_later q base last h1 h2
  rw [laterRules_nextweek q (lowerL q) base h3] at hr
  have hMeq : M = base + (7 - weekdayZ base) := hM.symm.trans hr
  have hwd1 := weekdayZ_nonneg base
  have hwd2 := weekdayZ_lt_seven base
  refine ⟨hMeq, by omega, by omega, ?_, ?_, ?_, ?_⟩
  · simp only [weekdayZ] at *; omega
  · simp only [weekdayZ] at *; omega
  · exact build_nextweek_eq store q M h3
  · have ha : M ≤ M + 6 := by omega
    have hb : (M + 6 - M).toNat = 6 := by omega
    simp only [dayList, if_pos ha, hb]
    rw [show List.range (6 + 1) = [0, 1, 2, 3, 4, 5, 6] by decide]
    simp only [List.map]
    norm_num

/-- C3 witness, exercising a category branch: "karaoke next week" on
`today` = ordinal 1000 (a Saturday) resolves to Monday 1002, range end
1008, context grouped per day. -/
theorem next_week_rule_witness :
    (1002 : ℤ) = 1000 + (7 - weekdayZ 1000) ∧
    (1000 : ℤ) < 1002 ∧ (1002 : ℤ) ≤ 1000 + 7 ∧
    weekdayZ 1002 = 0 ∧ weekdayZ (1002 + 6) = 6 ∧
    build_dataset_context [] ("karaoke next week".toList) 1002 =
      String.join ((dayList 1002 (1002 + 6)).map
        (grouped_day_block [] (lowerL ("karaoke next week".toList)))) ∧
    dayList 1002 (1002 + 6) =
      [1002, 1002 + 1, 1002 + 2, 1002 + 3, 1002 + 4, 1002 + 5, 1002 + 6] :=
  next_week_rule [] ("karaoke next week".toList) 1000 none
    (by decide) (Or.inl rfl) (by decide) 1002 (by decide)

/-! ### C6 -/

/-- C6: every turn appends exactly the user message and then the
assistant message to the history (append-only: the old history is a
prefix, length grows by two) and unconditionally overwrites
`lastTargetDate` with the resolved target date of the turn — the single date
`determine_target_date` returns, i.e. the range start, never the range
end — with no exception for conversational or greeting turns (there is no
hypothesis on the utterance). -/
theorem turn_appends_and_overwrites (st : ConversationState) (q : List Char)
    (today : ℤ) (resp : String) :
    (runTurn st q today resp).messages =
      st.messages ++ [⟨Role.user, String.mk q⟩, ⟨Role.assistant, resp⟩] ∧
    st.messages <+: (runTurn st q today resp).messages ∧
    (runTurn st q today resp).messages.length = st.messages.length + 2 ∧
    (runTurn st q today resp).lastTargetDate =
      some (determine_target_date q today st.lastTargetDate) :=
  ⟨rfl, ⟨_, rfl⟩, by simp [runTurn], rfl⟩

/-! ### C7 -/

theorem startsWithL_append (a b : List Char) : startsWithL (a ++ b) a = true := by
  induction a with
  | nil => simp [startsWithL]
  | cons c r ih => simp [startsWithL, ih]

/-- C7: a single-day lookup with an empty result set returns exactly the
literal "no events found" sentence: a non-empty string that starts with
"No", not with the bullet-list marker "• ".  The two parts are
independent: the plain sentence needs only the date filter empty (e.g. an
empty store), and the category-specific sentence needs only the category
filter empty — which also covers a date that has events of *other*
categories. -/
theorem empty_result_sentences (store : List EventRecord) (target : ℤ) (category : String) :
    (store.filter (fun r => decide (r.date = target)) = [] →
      get_events_for_date_range store target = "No events found for this date." ∧
      get_events_for_date_range store target ≠ "" ∧
      startsWithL (get_events_for_date_range store target).toList ("No events".toList) = true ∧
      startsWithL (get_events_for_date_range store target).toList ("• ".toList) = false) ∧
    (store.filter
        (fun r => decide (lowerS r.category = lowerS category) && decide (r.date = target)) =
          [] →
      get_events_for_category_and_date store category target =
        "No " ++ category ++ " events found on " ++ fmtDate target ++ "." ∧
      get_events_for_category_and_date store category target ≠ "" ∧
      startsWithL (get_events_for_category_and_date store category target).toList
        ("No ".toList) = true ∧
      startsWithL (get_events_for_category_and_date store category target).toList
        ("• ".toList) = false) := by
  have hlist : ("No " ++ category ++ " events found on " ++ fmtDate target ++ ".").toList
      = "No ".toList ++ (category.toList ++ (" events found on ".toList ++
        ((fmtDate target).toList ++ ".".toList))) := by
    simp [String.toList, String.data_append]
  constructor
  · intro h1
    have ha : get_events_for_date_range store target = "No events found for this date." := by
      simp [get_events_for_date_range, h1]
    refine ⟨ha, ?_, ?_, ?_⟩
    · rw [ha]; decide
    · rw [ha]; decide
    · rw [ha]; decide
  · intro h2
    have hb : get_events_for_category_and_date store category target =
        "No " ++ category ++ " events found on " ++ fmtDate target ++ "." := by
      simp [get_events_for_category_and_date, h2]
    refine ⟨hb, ?_, ?_, ?_⟩
    · rw [hb]
      intro h
      have h3 := congrArg String.toList h
      rw [hlist] at h3
      exact List.noConfusion h3
    · show startsWithL (get_events_for_category_and_date store category target).toList
        ("No ".toList) = true
      rw [hb, hlist]
      exact startsWithL_append _ _
    · rw [hb, hlist]
      simp [startsWithL]

/-- C7 witness: the plain sentence on the empty store, and the
category-specific sentence for "Comedy" on a date that *does* have a
Music event — zero category matches among other events. -/
theorem empty_result_sentences_witness :
    get_events_for_date_range ([] : List EventRecord) 739323 =
      "No events found for this date." ∧
    get_events_for_date_range ([] : List EventRecord) 739323 ≠ "" ∧
    startsWithL (get_events_for_date_range ([] : List EventRecord) 739323).toList
      ("No events".toList) = true ∧
    startsWithL (get_events_for_date_range ([] : List EventRecord) 739323).toList
      ("• ".toList) = false ∧
    get_events_for_category_and_date
        [⟨"Band Night", "Music", 739323, "20:00:00", "40 Watt", PriceVal.txt "5"⟩]
        "Comedy" 739323 =
      "No " ++ "Comedy" ++ " events found on " ++ fmtDate 739323 ++ "." ∧
    get_events_for_category_and_date
        [⟨"Band Night", "Music", 739323, "20:00:00", "40 Watt", PriceVal.txt "5"⟩]
        "Comedy" 739323 ≠ "" ∧
    startsWithL (get_events_for_category_and_date
        [⟨"Band Night", "Music", 739323, "20:00:00", "40 Watt", PriceVal.txt "5"⟩]
        "Comedy" 739323).toList ("No ".toList) = true ∧
    startsWithL (get_events_for_category_and_date
        [⟨"Band Night", "Music", 739323, "20:00:00", "40 Watt", PriceVal.txt "5"⟩]
        "Comedy" 739323).toList ("• ".toList) = false := by
  have hA := (empty_result_sentences [] 739323 "Comedy").1 rfl
  have hB := (empty_result_sentences
    [⟨"Band Night", "Music", 739323, "20:00:00", "40 Watt", PriceVal.txt "5"⟩]
    739323 "Comedy").2 (by decide)
  exact ⟨hA.1, hA.2.1, hA.2.2.1, hA.2.2.2, hB.1, hB.2.1, hB.2.2.1, hB.2.2.2⟩

/-! ### C5: ordering of range lookups -/

theorem charListLe_refl (a : List Char) : charListLe a a = true := by
  induction a with
  | nil => rfl
  | cons c r ih => simp [charListLe, ih]

theorem charListLe_total (a b : List Char) : charListLe a b || charListLe b a := by
  induction a generalizing b with
  | nil => simp [charListLe]
  | cons c r ih =>
    cases b with
    | nil => simp [charListLe]
    | cons d s =>
      simp only [charListLe]
      by_cases h1 : c.toNat < d.toNat
      · simp [h1]
      · by_cases h2 : d.toNat < c.toNat
        · simp [h1, h2]
        · simpa [h1, h2] using ih s

theorem charListLe_trans (a : List Char) :
    ∀ b c, charListLe a b = true → charListLe b c = true → charListLe a c = true := by
  induction a with
  | nil => intro b c _ _; rfl
  | cons x xs ih =>
    intro b c h1 h2
    cases b with
    | nil => simp [charListLe] at h1
    | cons y ys =>
      cases c with
      | nil => simp [charListLe] at h2
      | cons z zs =>
        simp only [charListLe] at h1 h2 ⊢
        by_cases hxy : x.toNat < y.toNat
        · by_cases hyz : y.toNat < z.toNat
          · simp [show x.toNat < z.toNat from hxy.trans hyz]
          · by_cases hzy : z.toNat < y.toNat
            · simp [hyz, hzy] at h2
            · simp [show x.toNat < z.toNat by omega]
        · by_cases hyx : y.toNat < x.toNat
          · simp [hxy, hyx] at h1
          · by_cases hyz : y.toNat < z.toNat
            · simp [show x.toNat < z.toNat by omega]
            · by_cases hzy : z.toNat < y.toNat
              · simp [hyz, hzy] at h2
              · have h1' : charListLe xs ys = true := by simpa [hxy, hyx] using h1
                have h2' : charListLe ys zs = true := by simpa [hyz, hzy] using h2
                simp [show ¬ x.toNat < z.toNat by omega, show ¬ z.toNat < x.toNat by omega,
                  ih ys zs h1' h2']

theorem keyLe_iff (r1 r2 : EventRecord) :
    keyLe r1 r2 = true ↔
      (r1.date < r2.date ∨
        (r1.date = r2.date ∧ charListLe r1.time.toList r2.time.toList = true)) := by
  unfold keyLe strLeB
  by_cases h : r1.date = r2.date
  · simp [h]
  · simp [h, decide_eq_true_eq]

theorem keyLe_total (a b : EventRecord) : keyLe a b || keyLe b a := by
  rw [Bool.or_eq_true, keyLe_iff, keyLe_iff]
  by_cases h : a.date = b.date
  · have ht := charListLe_total a.time.toList b.time.toList
    rw [Bool.or_eq_true] at ht
    rcases ht with hc | hc
    · exact Or.inl (Or.inr ⟨h, hc⟩)
    · exact Or.inr (Or.inr ⟨h.symm, hc⟩)
  · have h2 : a.date < b.date ∨ b.date < a.date := by omega
    rcases h2 with h2 | h2
    · exact Or.inl (Or.inl h2)
    · exact Or.inr (Or.inl h2)

theorem keyLe_trans (a b c : EventRecord) :
    keyLe a b → keyLe b c → keyLe a c := by
  intro h1 h2
  rw [keyLe_iff] at h1 h2 ⊢
  rcases h1 with h1 | ⟨h1e, h1c⟩ <;> rcases h2 with h2 | ⟨h2e, h2c⟩
  · exact Or.inl (h1.trans h2)
  · exact Or.inl (by omega)
  · exact Or.inl (by omega)
  · exact Or.inr ⟨h1e.trans h2e, charListLe_trans _ _ _ h1c h2c⟩

/-- C5 counterexample: two same-date records, one with the unparseable
time `"!!late"`, one with the valid time `"08:00:00"`.  The sort compares
the raw strings, so the unparseable-time record sorts *before* the
valid-time one, and the range lookup renders it first — refuting
"records with unparseable time sort after all records with valid time on
the same date". -/
theorem unparseable_time_sorts_first_cex :
    sortEvents [⟨"Valid Show", "Music", 100, "08:00:00", "The Foundry", PriceVal.num 10⟩,
        ⟨"Weird Show", "Music", 100, "!!late", "40 Watt", PriceVal.txt "TBD"⟩] =
      [⟨"Weird Show", "Music", 100, "!!late", "40 Watt", PriceVal.txt "TBD"⟩,
        ⟨"Valid Show", "Music", 100, "08:00:00", "The Foundry", PriceVal.num 10⟩] ∧
    parseHMS ("!!late".toList) = none ∧
    parseHMS ("08:00:00".toList) = some (8, 0) ∧
    get_events_for_date_range_range
        [⟨"Valid Show", "Music", 100, "08:00:00", "The Foundry", PriceVal.num 10⟩,
          ⟨"Weird Show", "Music", 100, "!!late", "40 Watt", PriceVal.txt "TBD"⟩] 100 100 =
      renderRow ⟨"Weird Show", "Music", 100, "!!late", "40 Watt", PriceVal.txt "TBD"⟩ ++
        renderRow ⟨"Valid Show", "Music", 100, "08:00:00", "The Foundry", PriceVal.num 10⟩ := by
  have hsort : sortEvents
      [⟨"Valid Show", "Music", 100, "08:00:00", "The Foundry", PriceVal.num 10⟩,
        ⟨"Weird Show", "Music", 100, "!!late", "40 Watt", PriceVal.txt "TBD"⟩] =
      [⟨"Weird Show", "Music", 100, "!!late", "40 Watt", PriceVal.txt "TBD"⟩,
        ⟨"Valid Show", "Music", 100, "08:00:00", "The Foundry", PriceVal.num 10⟩] := by
    unfold sortEvents
    rw [List.mergeSort]
    simp [List.splitInTwo, List.splitAt, List.splitAt.go, List.merge]
    decide
  refine ⟨hsort, by decide, by decide, ?_⟩
  simp only [get_events_for_date_range_range]
  rw [if_neg (by decide)]
  rw [show List.filter (fun r => decide (100 ≤ r.date) && decide (r.date ≤ 100))
      [(⟨"Valid Show", "Music", 100, "08:00:00", "The Foundry", PriceVal.num 10⟩ : EventRecord),
        ⟨"Weird Show", "Music", 100, "!!late", "40 Watt", PriceVal.txt "TBD"⟩] =
      [⟨"Valid Show", "Music", 100, "08:00:00", "The Foundry", PriceVal.num 10⟩,
        ⟨"Weird Show", "Music", 100, "!!late", "40 Watt", PriceVal.txt "TBD"⟩] from by decide,
    hsort]
  rfl

/-- C5 (amended): every range lookup renders the filtered records sorted
ascending by the key `(date, time)` where `time` is compared as its raw
string (so unparseable times sort purely by string order, not necessarily
after valid times), and the sort is stable: for every key value, the
records with that exact `(date, time)` key appear in their original load
order. -/
theorem range_lookup_sorted_stable (store : List EventRecord) (s e : ℤ)
    (h : store.filter (fun r => decide (s ≤ r.date) && decide (r.date ≤ e)) ≠ []) :
    get_events_for_date_range_range store s e =
      String.join
        ((sortEvents (store.filter (fun r => decide (s ≤ r.date) && decide (r.date ≤ e)))).map
          renderRow) ∧
    (sortEvents (store.filter (fun r => decide (s ≤ r.date) && decide (r.date ≤ e)))).Pairwise
      (fun a b => keyLe a b = true) ∧
    ∀ dk : ℤ, ∀ tk : String,
      (sortEvents (store.filter (fun r => decide (s ≤ r.date) && decide (r.date ≤ e)))).filter
          (fun r => decide (r.date = dk) && decide (r.time = tk)) =
        (store.filter (fun r => decide (s ≤ r.date) && decide (r.date ≤ e))).filter
          (fun r => decide (r.date = dk) && decide (r.time = tk)) := by
  refine ⟨?_, ?_, ?_⟩
  · simp only [get_events_for_date_range_range]
    rw [if_neg (by simpa [List.isEmpty_iff] using h)]
  · exact List.sorted_mergeSort (fun a b c => keyLe_trans a b c) keyLe_total _
  · intro dk tk
    set l := store.filter (fun r => decide (s ≤ r.date) && decide (r.date ≤ e)) with hl
    set p : EventRecord → Bool := fun r => decide (r.date = dk) && decide (r.time = tk) with hp
    have hmem : ∀ x ∈ l.filter p, p x = true := fun x hx => List.of_mem_filter hx
    have hpw : (l.filter p).Pairwise (fun a b => keyLe a b = true) := by
      apply List.pairwise_of_forall_mem_list
      intro x hx y hy
      have hx' := hmem x hx
      have hy' := hmem y hy
      simp only [hp, Bool.and_eq_true, decide_eq_true_eq] at hx' hy'
      unfold keyLe
      rw [hx'.1, hy'.1, if_pos rfl, hx'.2, hy'.2]
      exact charListLe_refl _
    have hsub2 : List.Sublist (l.filter p) (sortEvents l) :=
      List.sublist_mergeSort (fun a b c => keyLe_trans a b c) keyLe_total hpw
        (List.filter_sublist l)
    have hperm : List.Perm ((sortEvents l).filter p) (l.filter p) :=
      (List.mergeSort_perm l keyLe).filter p
    have hself : (l.filter p).filter p = l.filter p :=
      List.filter_eq_self.mpr fun a ha => List.of_mem_filter ha
    have hsub3 : List.Sublist (l.filter p) ((sortEvents l).filter p) :=
      hself ▸ hsub2.filter p
    exact ((hsub3.eq_of_length hperm.length_eq.symm).symm)

/-- C5 witness: two equal-key records; the sorted/stable conclusions at
the concrete key `(100, "10:00:00")`. -/
theorem range_lookup_sorted_stable_witness :
    get_events_for_date_range_range
        [⟨"A", "Music", 100, "10:00:00", "X", PriceVal.txt "5"⟩,
          ⟨"B", "Music", 100, "10:00:00", "Y", PriceVal.txt "5"⟩] 99 101 =
      String.join
        ((sortEvents
          (List.filter (fun r => decide ((99 : ℤ) ≤ r.date) && decide (r.date ≤ 101))
            [⟨"A", "Music", 100, "10:00:00", "X", PriceVal.txt "5"⟩,
              ⟨"B", "Music", 100, "10:00:00", "Y", PriceVal.txt "5"⟩])).map renderRow) ∧
    (sortEvents
      (List.filter (fun r => decide ((99 : ℤ) ≤ r.date) && decide (r.date ≤ 101))
        [⟨"A", "Music", 100, "10:00:00", "X", PriceVal.txt "5"⟩,
          ⟨"B", "Music", 100, "10:00:00", "Y", PriceVal.txt "5"⟩])).Pairwise
      (fun a b => keyLe a b = true) ∧
    (sortEvents
        (List.filter (fun r => decide ((99 : ℤ) ≤ r.date) && decide (r.date ≤ 101))
          [⟨"A", "Music", 100, "10:00:00", "X", PriceVal.txt "5"⟩,
            ⟨"B", "Music", 100, "10:00:00", "Y", PriceVal.txt "5"⟩])).filter
        (fun r => decide (r.date = 100) && decide (r.time = "10:00:00")) =
      (List.filter (fun r => decide ((99 : ℤ) ≤ r.date) && decide (r.date ≤ 101))
          [⟨"A", "Music", 100, "10:00:00", "X", PriceVal.txt "5"⟩,
            ⟨"B", "Music", 100, "10:00:00", "Y", PriceVal.txt "5"⟩]).filter
        (fun r => decide (r.date = 100) && decide (r.time = "10:00:00")) := by
  have h := range_lookup_sorted_stable
    [⟨"A", "Music", 100, "10:00:00", "X", PriceVal.txt "5"⟩,
      ⟨"B", "Music", 100, "10:00:00", "Y", PriceVal.txt "5"⟩] 99 101 (by decide)
  exact ⟨h.1, h.2.1, h.2.2 100 "10:00:00"⟩

/-! ### C8 -/

/-- C8 counterexample, refuting the claim in two places.  First, a
non-numeric price cell holding the literal text `"Free"` is passed
through verbatim, so the formatter yields `"Free"` for an input that does
not parse as the number zero — refuting the "exactly when" direction.
Second, `float()` also accepts non-finite values (NaN from an empty price
cell, `"inf"`), which compare unequal to zero and are printed by
`f"{v:.2f}"` as `"$nan"` / `"$inf"` — not 2-decimal currency strings —
refuting "any other parseable numeric value yields a 2-decimal currency
string". -/
theorem free_text_passthrough_cex :
    (format_price (PriceVal.txt "Free") = "Free" ∧
      PriceVal.txt "Free" ≠ PriceVal.num 0) ∧
    (format_price PriceVal.nan = "$nan" ∧ twoDecShape "$nan" = false) ∧
    (format_price PriceVal.inf = "$inf" ∧ twoDecShape "$inf" = false) :=
  ⟨⟨rfl, fun h => PriceVal.noConfusion h⟩, ⟨rfl, by decide⟩, ⟨rfl, by decide⟩⟩

theorem roundHE_intCast (n : ℤ) : roundHE ((n : ℚ)) = n := by
  unfold roundHE ratFloor
  norm_num

theorem pad2_fact : ∀ n : ℕ, n < 100 →
    (pad2 n).data.length = 2 ∧ (pad2 n).data.all Char.isDigit = true := by decide

/-- C8 (amended): a *finite numeric* price equal to zero formats as
`"Free"` and no other value does; any nonzero finite numeric value
formats as a 2-decimal currency string (leading `'$'`, trailing `'.'` +
two digits), with `12.5` giving exactly `"$12.50"`; the non-finite values
`float()` also accepts format as `"$inf"` / `"$-inf"` / `"$nan"`, which
are neither `"Free"` nor 2-decimal; a non-numeric value is returned
verbatim — which can itself be the text `"Free"`, so "yields Free exactly
when the value parses as zero" holds only restricted to parseable
inputs being finite numerics. -/
theorem format_price_spec (v : ℚ) (s : String) (hv : v ≠ 0) :
    format_price (PriceVal.num 0) = "Free" ∧
    format_price (PriceVal.num v) ≠ "Free" ∧
    twoDecShape (format_price (PriceVal.num v)) = true ∧
    format_price (PriceVal.num (25 / 2)) = "$12.50" ∧
    format_price PriceVal.inf = "$inf" ∧
    format_price PriceVal.neginf = "$-inf" ∧
    format_price PriceVal.nan = "$nan" ∧
    format_price PriceVal.nan ≠ "Free" ∧
    twoDecShape (format_price PriceVal.nan) = false ∧
    format_price (PriceVal.txt s) = s := by
  refine ⟨by simp [format_price], ?_, ?_, ?_, rfl, rfl, rfl, by decide, by decide, rfl⟩
  · simp only [format_price, if_neg hv]
    intro h
    have h2 := congrArg String.data h
    rw [String.data_append] at h2
    rw [show ("Free" : String).data = ['F', 'r', 'e', 'e'] from rfl,
      show ("$" : String).data = ['$'] from rfl] at h2
    simp at h2
  · have hform : format_price (PriceVal.num v) = "$" ++ fmt2dec v := by
      simp [format_price, hv]
    rw [hform]
    have hr : (roundHE (v * 100)).natAbs % 100 < 100 := Nat.mod_lt _ (by norm_num)
    have hfact := pad2_fact _ hr
    rcases hfact with ⟨hlen, hdig⟩
    cases hd : (pad2 ((roundHE (v * 100)).natAbs % 100)).data with
    | nil => rw [hd] at hlen; simp at hlen
    | cons c1 rest =>
      cases rest with
      | nil => rw [hd] at hlen; simp at hlen
      | cons c2 rest2 =>
        cases rest2 with
        | cons c3 rest3 => rw [hd] at hlen; simp at hlen
        | nil =>
          rw [hd] at hdig
          simp only [List.all_cons, List.all_nil, Bool.and_eq_true] at hdig
          have hs : ("$" ++ fmt2dec v).toList =
              '$' :: ((((if roundHE (v * 100) < 0 then "-" else "") : String).data ++
                (toString ((roundHE (v * 100)).natAbs / 100)).data ++ ['.']) ++
                (pad2 ((roundHE (v * 100)).natAbs % 100)).data) := by
            simp [fmt2dec, String.data_append]
          rw [twoDecShape]
          rw [hs, hd]
          simp [List.reverse_append, hdig.1, hdig.2.1]
  · have h0 : (25 : ℚ) / 2 * 100 = ((1250 : ℤ) : ℚ) := by norm_num
    have h1 : roundHE ((25 : ℚ) / 2 * 100) = 1250 := by rw [h0, roundHE_intCast]
    have h2 : ((25 : ℚ) / 2) ≠ 0 := by norm_num
    simp only [format_price, if_neg h2, fmt2dec, h1]
    decide

/-- C8 witness at `v = 10`, `s = "donation"`. -/
theorem format_price_spec_witness :
    format_price (PriceVal.num 0) = "Free" ∧
    format_price (PriceVal.num 10) ≠ "Free" ∧
    twoDecShape (format_price (PriceVal.num 10)) = true ∧
    format_price (PriceVal.num (25 / 2)) = "$12.50" ∧
    format_price PriceVal.inf = "$inf" ∧
    format_price PriceVal.neginf = "$-inf" ∧
    format_price PriceVal.nan = "$nan" ∧
    format_price PriceVal.nan ≠ "Free" ∧
    twoDecShape (format_price PriceVal.nan) = false ∧
    format_price (PriceVal.txt "donation") = "donation" :=
  format_price_spec 10 "donation" (by norm_num)

/-! ### C2: explicit date literals -/

/-- C2 counterexample: the utterance "tomorrow 3/15/2025" contains a
valid `M/D/YYYY` substring denoting 2025-03-15, yet the resolver returns
`today + 1` because the "tomorrow" rule runs first — so "returns exactly
`d` regardless of the surrounding text" is false. -/
theorem date_literal_not_context_free_cex :
    determine_target_date ("tomorrow 3/15/2025".toList) 1000 none = 1001 ∧
    (1001 : ℤ) ≠ ((toOrdinal 2025 3 15 : ℕ) : ℤ) ∧
    dateLit ("tomorrow 3/15/2025".toList) = some ((toOrdinal 2025 3 15 : ℕ) : ℤ) :=
  ⟨by decide, by decide, by decide⟩

theorem matchMD_nonDigit (c : Char) (r : List Char) (h : c.isDigit = false) :
    matchMD (c :: r) = none := by
  rcases r with _ | ⟨b, _ | ⟨d, t⟩⟩ <;> simp [matchMD, h]

theorem tryAt_nonDigit (c : Char) (r : List Char) (h : c.isDigit = false) :
    tryAt (c :: r) = none := by
  simp [tryAt, matchMD_nonDigit c r h]

theorem searchDate_append (pre s : List Char) (h : ∀ c ∈ pre, c.isDigit = false) :
    searchDate (pre ++ s) = searchDate s := by
  induction pre with
  | nil => simp
  | cons c r ih =>
    have hc : c.isDigit = false := h c (by simp)
    have hr : ∀ x ∈ r, x.isDigit = false := fun x hx => h x (by simp [hx])
    simp only [List.cons_append, searchDate]
    rw [tryAt_nonDigit c _ hc]
    exact ih hr

theorem matchMD_lit (mS rest : List Char) (hlen : mS.length = 1 ∨ mS.length = 2)
    (hdig : ∀ c ∈ mS, c.isDigit = true) :
    matchMD (mS ++ '/' :: rest) = some (mS, rest) := by
  rcases mS with _ | ⟨a, _ | ⟨b, _ | ⟨c, t⟩⟩⟩
  · simp at hlen
  · have ha : a.isDigit = true := hdig a (by simp)
    rcases rest with _ | ⟨r0, rr⟩ <;> simp [matchMD, ha]
  · have ha : a.isDigit = true := hdig a (by simp)
    have hb : b.isDigit = true := hdig b (by simp)
    simp [matchMD, ha, hb]
  · simp at hlen

theorem matchY_lit (e f g h2 : Char) (post : List Char)
    (he : e.isDigit = true) (hf : f.isDigit = true) (hg : g.isDigit = true)
    (hh : h2.isDigit = true) :
    matchY (e :: f :: g :: h2 :: post) = some [e, f, g, h2] := by
  simp [matchY, he, hf, hg, hh]

theorem tryAt_lit (mS dS yS post : List Char)
    (hmLen : mS.length = 1 ∨ mS.length = 2) (hmDig : ∀ c ∈ mS, c.isDigit = true)
    (hdLen : dS.length = 1 ∨ dS.length = 2) (hdDig : ∀ c ∈ dS, c.isDigit = true)
    (hyLen : yS.length = 4) (hyDig : ∀ c ∈ yS, c.isDigit = true) :
    tryAt (mS ++ '/' :: (dS ++ '/' :: (yS ++ post))) = some (mS, dS, yS) := by
  rcases yS with _ | ⟨e, ys⟩
  · simp at hyLen
  rcases ys with _ | ⟨f, ys⟩
  · simp at hyLen
  rcases ys with _ | ⟨g, ys⟩
  · simp at hyLen
  rcases ys with _ | ⟨h2, ys⟩
  · simp at hyLen
  rcases ys with _ | ⟨x, ys⟩
  · have he : e.isDigit = true := hyDig e (by simp)
    have hf : f.isDigit = true := hyDig f (by simp)
    have hg : g.isDigit = true := hyDig g (by simp)
    have hh : h2.isDigit = true := hyDig h2 (by simp)
    simp [tryAt, matchMD_lit mS _ hmLen hmDig, matchMD_lit dS _ hdLen hdDig,
      matchY_lit e f g h2 post he hf hg hh]
  · simp at hyLen

theorem searchDate_lit (mS dS yS post : List Char)
    (hmLen : mS.length = 1 ∨ mS.length = 2) (hmDig : ∀ c ∈ mS, c.isDigit = true)
    (hdLen : dS.length = 1 ∨ dS.length = 2) (hdDig : ∀ c ∈ dS, c.isDigit = true)
    (hyLen : yS.length = 4) (hyDig : ∀ c ∈ yS, c.isDigit = true) :
    searchDate (mS ++ '/' :: (dS ++ '/' :: (yS ++ post))) = some (mS, dS, yS) := by
  have ht := tryAt_lit mS dS yS post hmLen hmDig hdLen hdDig hyLen hyDig
  rcases mS with _ | ⟨a, t⟩
  · simp at hmLen
  · simp only [List.cons_append] at ht ⊢
    simp [searchDate, ht]

theorem parseMDY_year4 (mS dS yS : List Char)
    (hyLen : yS.length = 4)
    (hm1 : 1 ≤ digitsToNat mS) (hm2 : digitsToNat mS ≤ 12)
    (hd1 : 1 ≤ digitsToNat dS) (hd31 : digitsToNat dS ≤ 31)
    (hy1 : 1 ≤ digitsToNat yS)
    (hdm : digitsToNat dS ≤ daysInMonth (digitsToNat yS) (digitsToNat mS)) :
    parseMDY mS dS yS =
      some ((toOrdinal (digitsToNat yS) (digitsToNat mS) (digitsToNat dS) : ℕ) : ℤ) := by
  have hcond : 1 ≤ digitsToNat mS ∧ digitsToNat mS ≤ 12 ∧ 1 ≤ digitsToNat dS ∧
      digitsToNat dS ≤ 31 ∧ 1 ≤ digitsToNat yS ∧
      digitsToNat dS ≤ daysInMonth (digitsToNat yS) (digitsToNat mS) :=
    ⟨hm1, hm2, hd1, hd31, hy1, hdm⟩
  simp [parseMDY, hyLen, hcond]

/-- C2 (amended): for every valid calendar date and every utterance of
the form `pre ++ "M/D/YYYY" ++ post` in which `pre` contains no digits
(so the literal is the leftmost regex match) and no earlier rule fires
(no "tomorrow", no anaphora trigger with a set `lastTargetDate`, no
"next week", no weekday name), the resolver returns exactly the denoted
date, for any `today` and any `lastTargetDate`; the 4-digit-year
`strptime` format accepts it, first match wins, and (per the C9 theorem)
invalid calendar values instead fall through to the next rule. -/
theorem date_literal_resolves
    (pre post mS dS yS : List Char) (base : ℤ) (last : Option ℤ)
    (hpre : ∀ c ∈ pre, c.isDigit = false)
    (hmLen : mS.length = 1 ∨ mS.length = 2) (hmDig : ∀ c ∈ mS, c.isDigit = true)
    (hdLen : dS.length = 1 ∨ dS.length = 2) (hdDig : ∀ c ∈ dS, c.isDigit = true)
    (hyLen : yS.length = 4) (hyDig : ∀ c ∈ yS, c.isDigit = true)
    (hm1 : 1 ≤ digitsToNat mS) (hm2 : digitsToNat mS ≤ 12)
    (hd1 : 1 ≤ digitsToNat dS) (hd31 : digitsToNat dS ≤ 31)
    (hy1 : 1 ≤ digitsToNat yS)
    (hdm : digitsToNat dS ≤ daysInMonth (digitsToNat yS) (digitsToNat mS))
    (h1 : containsSub (lowerL (pre ++ (mS ++ '/' :: (dS ++ '/' :: (yS ++ post)))))
      tomorrowKW = false)
    (h2 : last = none ∨
      anaphoraTrigger (lowerL (pre ++ (mS ++ '/' :: (dS ++ '/' :: (yS ++ post))))) = false)
    (h3 : containsSub (lowerL (pre ++ (mS ++ '/' :: (dS ++ '/' :: (yS ++ post)))))
      nextWeekKW = false)
    (h4 : firstWeekdayIdx (lowerL (pre ++ (mS ++ '/' :: (dS ++ '/' :: (yS ++ post))))) = none) :
    determine_target_date (pre ++ (mS ++ '/' :: (dS ++ '/' :: (yS ++ post)))) base last =
      ((toOrdinal (digitsToNat yS) (digitsToNat mS) (digitsToNat dS) : ℕ) : ℤ) := by
  have hsearch : searchDate (pre ++ (mS ++ '/' :: (dS ++ '/' :: (yS ++ post)))) =
      some (mS, dS, yS) := by
    rw [searchDate_append pre _ hpre]
    exact searchDate_lit mS dS yS post hmLen hmDig hdLen hdDig hyLen hyDig
  have hlit : dateLit (pre ++ (mS ++ '/' :: (dS ++ '/' :: (yS ++ post)))) =
      some ((toOrdinal (digitsToNat yS) (digitsToNat mS) (digitsToNat dS) : ℕ) : ℤ) := by
    simp [dateLit, hsearch, parseMDY_year4 mS dS yS hyLen hm1 hm2 hd1 hd31 hy1 hdm]
  rw [determine_eq_later _ base last h1 h2]
  exact laterRules_literal _ _ base _ h3 h4 hlit

/-- C2 witness: the utterance "events on 3/15/2025 please". -/
theorem date_literal_resolves_witness :
    determine_target_date
        ("events on ".toList ++
          ("3".toList ++ '/' :: ("15".toList ++ '/' :: ("2025".toList ++ " please".toList))))
        1000 none =
      ((toOrdinal (digitsToNat ("2025".toList)) (digitsToNat ("3".toList))
          (digitsToNat ("15".toList)) : ℕ) : ℤ) :=
  date_literal_resolves ("events on ".toList) (" please".toList) ("3".toList) ("15".toList)
    ("2025".toList) 1000 none (by decide) (by decide) (by decide) (by decide) (by decide)
    (by decide) (by decide) (by decide) (by decide) (by decide) (by decide) (by decide)
    (by decide) (by decide) (Or.inl rfl) (by decide) (by decide)

end AthensEvents
